import Mathlib

/-!
# Verification of the blanko_quaternions algebra library

This file gives a shallow embedding of the library's complex, quaternion and
dual-quaternion algebra (src/complex.rs, src/util.rs, src/vector3.rs,
src/quaternion.rs, src/dual_quaternion.rs) and settles the frozen claims
about it.

Scalars (`Scalar`, an IEEE binary float fixed per build, f32 by default) are
modelled by `FScalar := Option ℝ`: `some x` is a finite value with exact real
arithmetic, `none` is a non-finite value (NaN or an infinity).  The partial
primitives — division by zero, square root of a negative, `acos` outside
[-1, 1], `ln` of a non-positive — return `none`, and every arithmetic
operation propagates `none`, which is exactly how the library's domain
singularities propagate as non-finite floats (spec §7).  Rounding and
overflow of finite arithmetic are abstracted away (values are exact reals);
the float comparison `<` is false whenever an operand is non-finite, as in
IEEE.  Slice-taking operations, which index elements 0,1,2 of a `&[Scalar]`
and panic on shorter slices, are embedded as `Option`-returning functions on
`List FScalar` (`none` = panic).

Alongside the faithful `FScalar` embedding, mirror definitions over plain `ℝ`
(`QuatR`, `DQR`, suffix `R`) repeat the same formulas for finite inputs; the
`lift` lemmas connect the two levels and let the analytic round-trip proofs
run over the reals.
-/

open scoped Classical

namespace Blanko

/-- Scalar model: `some x` is a finite float holding the exact real `x`;
`none` is a non-finite float (NaN or ±∞). -/
abbrev FScalar := Option ℝ

/-- Machine epsilon of the default f32 build (`Scalar::EPSILON` = 2⁻²³). -/
noncomputable def EPSILON : ℝ := 1 / 2 ^ 23

/-- Float addition: finite on finite operands, non-finite otherwise. -/
def fadd : FScalar → FScalar → FScalar
  | some x, some y => some (x + y)
  | _, _ => none

/-- Float subtraction. -/
def fsub : FScalar → FScalar → FScalar
  | some x, some y => some (x - y)
  | _, _ => none

/-- Float multiplication. -/
def fmul : FScalar → FScalar → FScalar
  | some x, some y => some (x * y)
  | _, _ => none

/-- Float negation. -/
def fneg : FScalar → FScalar
  | some x => some (-x)
  | none => none

/-- Float division: division by zero is non-finite (±∞ or NaN in IEEE). -/
noncomputable def fdiv : FScalar → FScalar → FScalar
  | some x, some y => if y = 0 then none else some (x / y)
  | _, _ => none

/-- Float square root: negative arguments give NaN. -/
noncomputable def fsqrt : FScalar → FScalar
  | some x => if x < 0 then none else some (Real.sqrt x)
  | none => none

/-- Float exponential (total on finite arguments; overflow abstracted). -/
noncomputable def fexp : FScalar → FScalar
  | some x => some (Real.exp x)
  | none => none

/-- Float natural logarithm: `ln` of 0 is -∞ and of a negative is NaN. -/
noncomputable def fln : FScalar → FScalar
  | some x => if 0 < x then some (Real.log x) else none
  | none => none

/-- Float `acos`: NaN outside [-1, 1]. -/
noncomputable def facos : FScalar → FScalar
  | some x => if x < -1 ∨ 1 < x then none else some (Real.arccos x)
  | none => none

/-- Float `atan` on finite arguments. -/
noncomputable def fatan : FScalar → FScalar
  | some x => some (Real.arctan x)
  | none => none

/-- Float sine. -/
noncomputable def fsin : FScalar → FScalar
  | some x => some (Real.sin x)
  | none => none

/-- Float cosine. -/
noncomputable def fcos : FScalar → FScalar
  | some x => some (Real.cos x)
  | none => none

/-- Float comparison `a < b`: false whenever an operand is non-finite
(NaN comparisons are false; the code only compares values that are
NaN or nonnegative when non-finite). -/
def flt (a b : FScalar) : Prop := ∃ x y, a = some x ∧ b = some y ∧ x < y

@[simp] theorem fadd_some (x y : ℝ) : fadd (some x) (some y) = some (x + y) := rfl

@[simp] theorem fadd_none_left (y : FScalar) : fadd none y = none := by
  cases y <;> rfl

@[simp] theorem fadd_none_right (x : FScalar) : fadd x none = none := by
  cases x <;> rfl

@[simp] theorem fsub_some (x y : ℝ) : fsub (some x) (some y) = some (x - y) := rfl

@[simp] theorem fsub_none_left (y : FScalar) : fsub none y = none := by
  cases y <;> rfl

@[simp] theorem fsub_none_right (x : FScalar) : fsub x none = none := by
  cases x <;> rfl

@[simp] theorem fmul_some (x y : ℝ) : fmul (some x) (some y) = some (x * y) := rfl

@[simp] theorem fmul_none_left (y : FScalar) : fmul none y = none := by
  cases y <;> rfl

@[simp] theorem fmul_none_right (x : FScalar) : fmul x none = none := by
  cases x <;> rfl

@[simp] theorem fneg_some (x : ℝ) : fneg (some x) = some (-x) := rfl

@[simp] theorem fneg_none : fneg none = none := rfl

@[simp] theorem fdiv_none_left (y : FScalar) : fdiv none y = none := by
  cases y <;> rfl

@[simp] theorem fdiv_none_right (x : FScalar) : fdiv x none = none := by
  cases x <;> rfl

theorem fdiv_some_of_ne (x : ℝ) {y : ℝ} (h : y ≠ 0) :
    fdiv (some x) (some y) = some (x / y) := by
  simp [fdiv, h]

@[simp] theorem fdiv_some_zero (x : ℝ) : fdiv (some x) (some 0) = none := by
  simp [fdiv]

theorem fsqrt_some_of_nonneg {x : ℝ} (h : 0 ≤ x) :
    fsqrt (some x) = some (Real.sqrt x) := by
  simp [fsqrt, not_lt.2 h]

@[simp] theorem fsqrt_none : fsqrt none = none := rfl

@[simp] theorem fexp_some (x : ℝ) : fexp (some x) = some (Real.exp x) := rfl

@[simp] theorem fexp_none : fexp none = none := rfl

theorem fln_some_of_pos {x : ℝ} (h : 0 < x) : fln (some x) = some (Real.log x) := by
  simp [fln, h]

@[simp] theorem fln_none : fln none = none := rfl

@[simp] theorem facos_none : facos none = none := rfl

@[simp] theorem fatan_some (x : ℝ) : fatan (some x) = some (Real.arctan x) := rfl

@[simp] theorem fatan_none : fatan none = none := rfl

@[simp] theorem fsin_some (x : ℝ) : fsin (some x) = some (Real.sin x) := rfl

@[simp] theorem fsin_none : fsin none = none := rfl

@[simp] theorem fcos_some (x : ℝ) : fcos (some x) = some (Real.cos x) := rfl

@[simp] theorem fcos_none : fcos none = none := rfl

@[simp] theorem flt_some_iff (x y : ℝ) : flt (some x) (some y) ↔ x < y := by
  constructor
  · rintro ⟨a, b, ha, hb, h⟩
    rw [Option.some.injEq] at ha hb
    rw [ha, hb]
    exact h
  · intro h
    exact ⟨x, y, rfl, rfl, h⟩

@[simp] theorem flt_none_left (y : FScalar) : ¬ flt none y := by
  rintro ⟨a, b, ha, hb, h⟩
  cases ha

@[simp] theorem flt_none_right (x : FScalar) : ¬ flt x none := by
  rintro ⟨a, b, ha, hb, h⟩
  cases hb

theorem EPSILON_pos : 0 < EPSILON := by norm_num [EPSILON]

/-! ## Vector3 (src/vector3.rs) -/

/-- The internal 3-vector helper type (`Vector3` in src/vector3.rs). -/
@[ext] structure Vector3 where
  x : FScalar
  y : FScalar
  z : FScalar

namespace Vector3

/-- Componentwise addition (derive_more::Add). -/
def add (a b : Vector3) : Vector3 :=
  ⟨fadd a.x b.x, fadd a.y b.y, fadd a.z b.z⟩

/-- Componentwise subtraction (derive_more::Sub). -/
def sub (a b : Vector3) : Vector3 :=
  ⟨fsub a.x b.x, fsub a.y b.y, fsub a.z b.z⟩

/-- Scaling `lhs * rhs` for a scalar `rhs`; the commutative impl computes the
same body for `rhs * lhs`. -/
def smul (a : Vector3) (s : FScalar) : Vector3 :=
  ⟨fmul a.x s, fmul a.y s, fmul a.z s⟩

/-- Cross product, exactly as written in `Vector3::cross`. -/
def cross (a b : Vector3) : Vector3 :=
  ⟨fsub (fmul a.y b.z) (fmul b.y a.z),
   fsub (fmul a.z b.x) (fmul b.z a.x),
   fsub (fmul a.x b.y) (fmul b.x a.y)⟩

/-- `Vector3::norm`: `(x*x + y*y + z*z).sqrt()`. -/
noncomputable def norm (a : Vector3) : FScalar :=
  fsqrt (fadd (fadd (fmul a.x a.x) (fmul a.y a.y)) (fmul a.z a.z))

/-- `Vector3::normalize`: `self * (1.0/self.norm())`. -/
noncomputable def normalize (a : Vector3) : Vector3 :=
  a.smul (fdiv (some 1) a.norm)

end Vector3

/-! ## Angle (src/angle.rs), as far as the core consumes it -/

/-- The library's angle type (`Angle` in src/angle.rs): a radians/degrees
pair kept in sync by every operation. -/
@[ext] structure Angle where
  rad : FScalar
  deg : FScalar

namespace Angle

/-- The product `Angle * Scalar` (and its commutative twin): scales both
projections. -/
def smul (a : Angle) (s : FScalar) : Angle :=
  ⟨fmul a.rad s, fmul a.deg s⟩

/-- `Angle::sin_cos`: `self.rad.sin_cos()`. -/
noncomputable def sin_cos (a : Angle) : FScalar × FScalar :=
  (fsin a.rad, fcos a.rad)

end Angle

/-! ## Complex (src/complex.rs) -/

/-- The library's complex-number type (`Complex` in src/complex.rs). -/
@[ext] structure Complex where
  re : FScalar
  im : FScalar

namespace Complex

/-- The binary product `Complex * Complex` (src/complex.rs, `impl_op_ex!(*)`). -/
def mul (a b : Complex) : Complex :=
  ⟨fsub (fmul a.re b.re) (fmul a.im b.im),
   fadd (fmul a.im b.re) (fmul a.re b.im)⟩

/-- The compound assignment `Complex *= Complex` (src/complex.rs,
`impl_op_ex!(*=)`): the two field writes happen in order, so the `im`
update reads the already-updated `re` field. -/
def mulAssign (a b : Complex) : Complex :=
  let re := fsub (fmul a.re b.re) (fmul a.im b.im)
  let im := fadd (fmul a.im b.re) (fmul re b.im)
  ⟨re, im⟩

end Complex

/-! ## Quaternion (src/quaternion.rs) -/

/-- The library's quaternion type (`Quaternion` in src/quaternion.rs). -/
@[ext] structure Quaternion where
  w : FScalar
  i : FScalar
  j : FScalar
  k : FScalar

namespace Quaternion

/-- `Quaternion::ZERO`. -/
def ZERO : Quaternion := ⟨some 0, some 0, some 0, some 0⟩

/-- `Quaternion::ONE`. -/
def ONE : Quaternion := ⟨some 1, some 0, some 0, some 0⟩

/-- Componentwise addition (derive_more::Add). -/
def add (a b : Quaternion) : Quaternion :=
  ⟨fadd a.w b.w, fadd a.i b.i, fadd a.j b.j, fadd a.k b.k⟩

/-- `Quaternion::conj`. -/
def conj (q : Quaternion) : Quaternion :=
  ⟨q.w, fneg q.i, fneg q.j, fneg q.k⟩

/-- `Quaternion::norm`: `(w*w + i*i + j*j + k*k).sqrt()`. -/
noncomputable def norm (q : Quaternion) : FScalar :=
  fsqrt (fadd (fadd (fadd (fmul q.w q.w) (fmul q.i q.i)) (fmul q.j q.j)) (fmul q.k q.k))

/-- The Hamilton product `Quaternion * Quaternion`
(src/quaternion.rs, `impl_op_ex!(*)`). -/
def mul (a b : Quaternion) : Quaternion :=
  ⟨fsub (fsub (fsub (fmul a.w b.w) (fmul a.i b.i)) (fmul a.j b.j)) (fmul a.k b.k),
   fsub (fadd (fadd (fmul a.w b.i) (fmul a.i b.w)) (fmul a.j b.k)) (fmul a.k b.j),
   fadd (fadd (fsub (fmul a.w b.j) (fmul a.i b.k)) (fmul a.j b.w)) (fmul a.k b.i),
   fadd (fsub (fadd (fmul a.w b.k) (fmul a.i b.j)) (fmul a.j b.i)) (fmul a.k b.w)⟩

/-- The product `Quaternion * Scalar` (and its commutative twin
`Scalar * Quaternion`, which computes the same body `lhs.c * rhs`). -/
def smul (q : Quaternion) (s : FScalar) : Quaternion :=
  ⟨fmul q.w s, fmul q.i s, fmul q.j s, fmul q.k s⟩

/-- `Quaternion::point`: builds `xi + yj + zk` from slice elements 0,1,2;
`none` models the index panic on a slice shorter than 3. -/
def point (pos : List FScalar) : Option Quaternion :=
  match pos.get? 0, pos.get? 1, pos.get? 2 with
  | some x, some y, some z => some ⟨some 0, x, y, z⟩
  | _, _, _ => none

/-- `Quaternion::transform_vector`: reads slice elements 0,1,2 into a
`Vector3` and applies `vector + 2*(w*a + v×a)` with `a = v×vector`. -/
def transform_vector (q : Quaternion) (vector : List FScalar) : Option Vector3 :=
  match vector.get? 0, vector.get? 1, vector.get? 2 with
  | some vx, some vy, some vz =>
    let vec : Vector3 := ⟨vx, vy, vz⟩
    let v : Vector3 := ⟨q.i, q.j, q.k⟩
    let a := v.cross vec
    some (vec.add (Vector3.smul ((a.smul q.w).add (v.cross a)) (some 2)))
  | _, _, _ => none

/-- `Quaternion::transform_vector_scaled`: like `transform_vector` but the
input vector is additionally scaled by `norm()²` (`self.norm().powi(2)`);
reads slice elements 0,1,2. -/
noncomputable def transform_vector_scaled (q : Quaternion) (vector : List FScalar) :
    Option Vector3 :=
  match vector.get? 0, vector.get? 1, vector.get? 2 with
  | some vx, some vy, some vz =>
    let vec : Vector3 := ⟨vx, vy, vz⟩
    let v : Vector3 := ⟨q.i, q.j, q.k⟩
    let a := v.cross vec
    let s := fmul q.norm q.norm
    some ((vec.smul s).add (Vector3.smul ((a.smul q.w).add (v.cross a)) (some 2)))
  | _, _, _ => none

/-- `Quaternion::exp`: `radius = exp(w)`, `angle = |v|`, components
`radius*sin*c/angle` — there is no special case for `angle = 0`. -/
noncomputable def exp (q : Quaternion) : Quaternion :=
  let radius := fexp q.w
  let angle := fsqrt (fadd (fadd (fmul q.i q.i) (fmul q.j q.j)) (fmul q.k q.k))
  let s := fsin angle
  let c := fcos angle
  ⟨fmul radius c,
   fdiv (fmul (fmul radius s) q.i) angle,
   fdiv (fmul (fmul radius s) q.j) angle,
   fdiv (fmul (fmul radius s) q.k) angle⟩

/-- `Quaternion::log`: `w = ln(norm)`, vector components
`acos(w / axis_norm) * c / axis_norm` — the argument of `acos` is divided by
the axis norm, and there is no special case for `axis_norm = 0`. -/
noncomputable def log (q : Quaternion) : Quaternion :=
  let n := q.norm
  let axis_norm := fsqrt (fadd (fadd (fmul q.i q.i) (fmul q.j q.j)) (fmul q.k q.k))
  let ac := facos (fdiv q.w axis_norm)
  ⟨fln n,
   fdiv (fmul ac q.i) axis_norm,
   fdiv (fmul ac q.j) axis_norm,
   fdiv (fmul ac q.k) axis_norm⟩

/-- `Quaternion::powf`: `(f * self.log()).exp()`. -/
noncomputable def powf (q : Quaternion) (f : FScalar) : Quaternion :=
  (q.log.smul f).exp

/-- The binary product `Quaternion * Complex` (src/util.rs). -/
def mulComplex (q : Quaternion) (c : Complex) : Quaternion :=
  ⟨fsub (fmul q.w c.re) (fmul q.i c.im),
   fadd (fmul q.w c.im) (fmul q.i c.re),
   fadd (fmul q.j c.re) (fmul q.k c.im),
   fadd (fmul (fneg q.j) c.im) (fmul q.k c.re)⟩

/-- The compound assignment `Quaternion *= Complex` (src/util.rs): the four
field writes happen in order, so the `i` update reads the already-updated
`w` field and the `k` update reads the already-updated `j` field. -/
def mulAssignComplex (q : Quaternion) (c : Complex) : Quaternion :=
  let w := fsub (fmul q.w c.re) (fmul q.i c.im)
  let i := fadd (fmul w c.im) (fmul q.i c.re)
  let j := fadd (fmul q.j c.re) (fmul q.k c.im)
  let k := fadd (fmul (fneg j) c.im) (fmul q.k c.re)
  ⟨w, i, j, k⟩

end Quaternion

/-! ## DualQuaternion (src/dual_quaternion.rs) -/

/-- The library's dual-quaternion type (`DualQuaternion` in
src/dual_quaternion.rs), with the source's field order. -/
@[ext] structure DualQuaternion where
  w : FScalar
  i : FScalar
  j : FScalar
  k : FScalar
  ie : FScalar
  je : FScalar
  ke : FScalar
  we : FScalar

namespace DualQuaternion

/-- `DualQuaternion::ZERO`. -/
def ZERO : DualQuaternion :=
  ⟨some 0, some 0, some 0, some 0, some 0, some 0, some 0, some 0⟩

/-- `DualQuaternion::ONE`: the identity motion, `w = 1` and all else 0. -/
def ONE : DualQuaternion :=
  ⟨some 1, some 0, some 0, some 0, some 0, some 0, some 0, some 0⟩

/-- `DualQuaternion::conj` ("line"/Clifford conjugate): negate everything
except the scalar and dual-scalar components. -/
def conj (a : DualQuaternion) : DualQuaternion :=
  ⟨a.w, fneg a.i, fneg a.j, fneg a.k, fneg a.ie, fneg a.je, fneg a.ke, a.we⟩

/-- `DualQuaternion::nconj` ("point" conjugate): like `conj` with the dual
part negated afterwards, i.e. negate `i,j,k` and `we`. -/
def nconj (a : DualQuaternion) : DualQuaternion :=
  ⟨a.w, fneg a.i, fneg a.j, fneg a.k, a.ie, a.je, a.ke, fneg a.we⟩

/-- `DualQuaternion::iconj` (dual/"ideal" conjugate): negate only the dual
part `ie,je,ke,we`. -/
def iconj (a : DualQuaternion) : DualQuaternion :=
  ⟨a.w, a.i, a.j, a.k, fneg a.ie, fneg a.je, fneg a.ke, fneg a.we⟩

/-- `DualQuaternion::norm`: Euclidean norm of the real-part quaternion. -/
noncomputable def norm (a : DualQuaternion) : FScalar :=
  fsqrt (fadd (fadd (fadd (fmul a.w a.w) (fmul a.i a.i)) (fmul a.j a.j)) (fmul a.k a.k))

/-- The product `DualQuaternion * Scalar` (and its commutative twin), with
the source's component bodies `rhs * lhs.c`. -/
def smulLeft (s : FScalar) (a : DualQuaternion) : DualQuaternion :=
  ⟨fmul s a.w, fmul s a.i, fmul s a.j, fmul s a.k,
   fmul s a.ie, fmul s a.je, fmul s a.ke, fmul s a.we⟩

/-- `DualQuaternion::normalized`: `self * (1.0 / self.norm())`. -/
noncomputable def normalized (a : DualQuaternion) : DualQuaternion :=
  smulLeft (fdiv (some 1) a.norm) a

/-- The product `DualQuaternion * DualQuaternion`
(src/dual_quaternion.rs, `impl_op_ex!(*)`): split both operands into real
and dual quaternions and combine the three Hamilton products. -/
def mul (a b : DualQuaternion) : DualQuaternion :=
  let lhsReal : Quaternion := ⟨a.w, a.i, a.j, a.k⟩
  let lhsDual : Quaternion := ⟨a.we, a.ie, a.je, a.ke⟩
  let rhsReal : Quaternion := ⟨b.w, b.i, b.j, b.k⟩
  let rhsDual : Quaternion := ⟨b.we, b.ie, b.je, b.ke⟩
  let r := lhsReal.mul rhsReal
  let d := (lhsReal.mul rhsDual).add (lhsDual.mul rhsReal)
  ⟨r.w, r.i, r.j, r.k, d.i, d.j, d.k, d.w⟩

/-- `DualQuaternion::point`: `1 + (x i + y j + z k)ε` from slice elements
0,1,2; `none` models the index panic on a slice shorter than 3. -/
def point (pos : List FScalar) : Option DualQuaternion :=
  match pos.get? 0, pos.get? 1, pos.get? 2 with
  | some x, some y, some z => some ⟨some 1, some 0, some 0, some 0, x, y, z, some 0⟩
  | _, _, _ => none

/-- `DualQuaternion::line`: normalizes `dir` with `n = 1/|dir|`, sets
`(i,j,k)` to the normalized direction and `(ie,je,ke)` to
`n * (pos × dir_normalized)`; both slices are indexed at 0,1,2 (`none`
models the panic on a short slice). -/
noncomputable def line (pos dir : List FScalar) : Option DualQuaternion :=
  match pos.get? 0, pos.get? 1, pos.get? 2, dir.get? 0, dir.get? 1, dir.get? 2 with
  | some p0, some p1, some p2, some d0, some d1, some d2 =>
    let n := fdiv (some 1) (fsqrt (fadd (fadd (fmul d0 d0) (fmul d1 d1)) (fmul d2 d2)))
    let e0 := fmul d0 n
    let e1 := fmul d1 n
    let e2 := fmul d2 n
    let m0 := fmul n (fsub (fmul p1 e2) (fmul e1 p2))
    let m1 := fmul n (fsub (fmul p2 e0) (fmul e2 p0))
    let m2 := fmul n (fsub (fmul p0 e1) (fmul e0 p1))
    some ⟨some 0, e0, e1, e2, m0, m1, m2, some 0⟩
  | _, _, _, _, _, _ => none

/-- `DualQuaternion::rotor`: pure-rotation motion from an angle and an
axis slice; reads axis elements 0,1,2, normalizes the axis and uses the
half-angle sine/cosine. -/
noncomputable def rotor (angle : Angle) (axis : List FScalar) : Option DualQuaternion :=
  match axis.get? 0, axis.get? 1, axis.get? 2 with
  | some x, some y, some z =>
    let ax : Vector3 := ⟨x, y, z⟩
    let sc := (angle.smul (some 0.5)).sin_cos
    let dir := ax.normalize
    some ⟨sc.2, fmul sc.1 dir.x, fmul sc.1 dir.y, fmul sc.1 dir.z,
          some 0, some 0, some 0, some 0⟩
  | _, _, _ => none

/-- `DualQuaternion::translator`: pure-translation motion, `w = 1` and dual
vector part `0.5 * translation`; reads slice elements 0,1,2. -/
def translator (translation : List FScalar) : Option DualQuaternion :=
  match translation.get? 0, translation.get? 1, translation.get? 2 with
  | some x, some y, some z =>
    some ⟨some 1, some 0, some 0, some 0,
          fmul (some 0.5) x, fmul (some 0.5) y, fmul (some 0.5) z, some 0⟩
  | _, _, _ => none

/-- `DualQuaternion::transform_vector3`: rotates a 3-vector about the
origin, `vector + 2*(w*a + v×a)` with `a = v×vector`; reads slice
elements 0,1,2 (the dual part is unused). -/
def transform_vector3 (q : DualQuaternion) (vector3 : List FScalar) : Option Vector3 :=
  match vector3.get? 0, vector3.get? 1, vector3.get? 2 with
  | some vx, some vy, some vz =>
    let vec : Vector3 := ⟨vx, vy, vz⟩
    let v : Vector3 := ⟨q.i, q.j, q.k⟩
    let a := v.cross vec
    some (vec.add (Vector3.smul ((a.smul q.w).add (v.cross a)) (some 2)))
  | _, _, _ => none

/-- `DualQuaternion::transform_point`: reads slice elements 0,1,2 and
applies `p + 2*(w*a + v×a - we*v)` with `a = v×p + m`. -/
def transform_point (q : DualQuaternion) (point : List FScalar) : Option Vector3 :=
  match point.get? 0, point.get? 1, point.get? 2 with
  | some px, some py, some pz =>
    let p : Vector3 := ⟨px, py, pz⟩
    let v : Vector3 := ⟨q.i, q.j, q.k⟩
    let m : Vector3 := ⟨q.ie, q.je, q.ke⟩
    let a := (v.cross p).add m
    some (p.add (Vector3.smul (((a.smul q.w).add (v.cross a)).sub (v.smul q.we)) (some 2)))
  | _, _, _ => none

/-- `DualQuaternion::exp`: exponential of a pure generator.  Computes
`r = |v|` and returns `ONE` when `r*r < Scalar::EPSILON` (the guarded
zero-rotation limit); otherwise uses the closed form with `t = v·m`. -/
noncomputable def exp (q : DualQuaternion) : DualQuaternion :=
  let r := fsqrt (fadd (fadd (fmul q.i q.i) (fmul q.j q.j)) (fmul q.k q.k))
  if flt (fmul r r) (some EPSILON) then ONE
  else
    let t := fadd (fadd (fmul q.i q.ie) (fmul q.j q.je)) (fmul q.k q.ke)
    let s := fsin r
    let c := fcos r
    let tr := fmul (fsub (fdiv c (fmul r r)) (fdiv s (fmul (fmul r r) r))) t
    ⟨c,
     fmul (fdiv s r) q.i,
     fmul (fdiv s r) q.j,
     fmul (fdiv s r) q.k,
     fadd (fmul (fdiv s r) q.ie) (fmul tr q.i),
     fadd (fmul (fdiv s r) q.je) (fmul tr q.j),
     fadd (fmul (fdiv s r) q.ke) (fmul tr q.k),
     fmul (fneg (fdiv s r)) t⟩

/-- `DualQuaternion::log`: logarithm of a normalized dual quaternion, with
`r = |v|`, `t = v·m`, `a = atan(r/w)/r`, `b = t/(r*r)` and
`tr = (w - a)*b - we`. -/
noncomputable def log (q : DualQuaternion) : DualQuaternion :=
  let r := fsqrt (fadd (fadd (fmul q.i q.i) (fmul q.j q.j)) (fmul q.k q.k))
  let t := fadd (fadd (fmul q.i q.ie) (fmul q.j q.je)) (fmul q.k q.ke)
  let a := fdiv (fatan (fdiv r q.w)) r
  let b := fdiv t (fmul r r)
  let tr := fsub (fmul (fsub q.w a) b) q.we
  ⟨some 0,
   fmul a q.i, fmul a q.j, fmul a q.k,
   fadd (fmul a q.ie) (fmul tr q.i),
   fadd (fmul a q.je) (fmul tr q.j),
   fadd (fmul a q.ke) (fmul tr q.k),
   some 0⟩

/-- `DualQuaternion::powf`: `(f * self.log()).exp()`. -/
noncomputable def powf (q : DualQuaternion) (f : FScalar) : DualQuaternion :=
  (smulLeft f q.log).exp

/-- `DualQuaternion::sclerp`: `self * (self.conj() * other).powf(alpha)`. -/
noncomputable def sclerp (a b : DualQuaternion) (alpha : FScalar) : DualQuaternion :=
  a.mul ((a.conj.mul b).powf alpha)

end DualQuaternion

/-! ## Real-valued mirror definitions

The same formulas over plain `ℝ`, for use on all-finite inputs; the `lift`
lemmas below show they agree with the `FScalar` embedding there. -/

/-- Real-valued mirror of `Quaternion`. -/
@[ext] structure QuatR where
  w : ℝ
  i : ℝ
  j : ℝ
  k : ℝ

namespace QuatR

/-- Hamilton product over `ℝ`, same formula as `Quaternion.mul`. -/
def mul (a b : QuatR) : QuatR :=
  ⟨a.w * b.w - a.i * b.i - a.j * b.j - a.k * b.k,
   a.w * b.i + a.i * b.w + a.j * b.k - a.k * b.j,
   a.w * b.j - a.i * b.k + a.j * b.w + a.k * b.i,
   a.w * b.k + a.i * b.j - a.j * b.i + a.k * b.w⟩

/-- Componentwise addition over `ℝ`. -/
def add (a b : QuatR) : QuatR :=
  ⟨a.w + b.w, a.i + b.i, a.j + b.j, a.k + b.k⟩

end QuatR

/-- Real-valued mirror of `DualQuaternion`. -/
@[ext] structure DQR where
  w : ℝ
  i : ℝ
  j : ℝ
  k : ℝ
  ie : ℝ
  je : ℝ
  ke : ℝ
  we : ℝ

namespace DQR

/-- Real-valued mirror of `DualQuaternion.ONE`. -/
def ONE : DQR := ⟨1, 0, 0, 0, 0, 0, 0, 0⟩

/-- Real-valued mirror of `DualQuaternion.conj`. -/
def conj (a : DQR) : DQR :=
  ⟨a.w, -a.i, -a.j, -a.k, -a.ie, -a.je, -a.ke, a.we⟩

/-- Real-valued mirror of `DualQuaternion.mul`. -/
def mul (a b : DQR) : DQR :=
  let r := QuatR.mul ⟨a.w, a.i, a.j, a.k⟩ ⟨b.w, b.i, b.j, b.k⟩
  let d := QuatR.add (QuatR.mul ⟨a.w, a.i, a.j, a.k⟩ ⟨b.we, b.ie, b.je, b.ke⟩)
                     (QuatR.mul ⟨a.we, a.ie, a.je, a.ke⟩ ⟨b.w, b.i, b.j, b.k⟩)
  ⟨r.w, r.i, r.j, r.k, d.i, d.j, d.k, d.w⟩

/-- Real-valued mirror of `DualQuaternion.smulLeft`. -/
def smulLeft (s : ℝ) (a : DQR) : DQR :=
  ⟨s * a.w, s * a.i, s * a.j, s * a.k, s * a.ie, s * a.je, s * a.ke, s * a.we⟩

/-- Real-valued mirror of `DualQuaternion.exp`. -/
noncomputable def exp (q : DQR) : DQR :=
  let r := Real.sqrt (q.i * q.i + q.j * q.j + q.k * q.k)
  if r * r < EPSILON then ONE
  else
    let t := q.i * q.ie + q.j * q.je + q.k * q.ke
    let s := Real.sin r
    let c := Real.cos r
    let tr := (c / (r * r) - s / (r * r * r)) * t
    ⟨c,
     s / r * q.i, s / r * q.j, s / r * q.k,
     s / r * q.ie + tr * q.i,
     s / r * q.je + tr * q.j,
     s / r * q.ke + tr * q.k,
     -(s / r) * t⟩

/-- Real-valued mirror of `DualQuaternion.log`. -/
noncomputable def log (q : DQR) : DQR :=
  let r := Real.sqrt (q.i * q.i + q.j * q.j + q.k * q.k)
  let t := q.i * q.ie + q.j * q.je + q.k * q.ke
  let a := Real.arctan (r / q.w) / r
  let b := t / (r * r)
  let tr := (q.w - a) * b - q.we
  ⟨0,
   a * q.i, a * q.j, a * q.k,
   a * q.ie + tr * q.i,
   a * q.je + tr * q.j,
   a * q.ke + tr * q.k,
   0⟩

end DQR

/-- Embed a real quaternion as an all-finite `Quaternion`. -/
def liftQ (a : QuatR) : Quaternion := ⟨some a.w, some a.i, some a.j, some a.k⟩

/-- Embed a real dual quaternion as an all-finite `DualQuaternion`. -/
def liftDQ (a : DQR) : DualQuaternion :=
  ⟨some a.w, some a.i, some a.j, some a.k, some a.ie, some a.je, some a.ke, some a.we⟩

/-! ### Transfer lemmas between the float model and its real mirror -/

theorem mul_liftDQ (a b : DQR) :
    DualQuaternion.mul (liftDQ a) (liftDQ b) = liftDQ (DQR.mul a b) := by
  simp [liftDQ, DualQuaternion.mul, DQR.mul, Quaternion.mul, QuatR.mul,
    Quaternion.add, QuatR.add]

theorem conj_liftDQ (a : DQR) :
    DualQuaternion.conj (liftDQ a) = liftDQ (DQR.conj a) := by
  simp [liftDQ, DualQuaternion.conj, DQR.conj]

theorem smulLeft_liftDQ (s : ℝ) (a : DQR) :
    DualQuaternion.smulLeft (some s) (liftDQ a) = liftDQ (DQR.smulLeft s a) := by
  simp [liftDQ, DualQuaternion.smulLeft, DQR.smulLeft]

theorem exp_liftDQ (a : DQR) :
    DualQuaternion.exp (liftDQ a) = liftDQ (DQR.exp a) := by
  have hs0 : (0:ℝ) ≤ a.i * a.i + a.j * a.j + a.k * a.k := by
    nlinarith [mul_self_nonneg a.i, mul_self_nonneg a.j, mul_self_nonneg a.k]
  unfold DualQuaternion.exp DQR.exp
  simp only [liftDQ, fmul_some, fadd_some, fsqrt_some_of_nonneg hs0]
  by_cases h : Real.sqrt (a.i * a.i + a.j * a.j + a.k * a.k) *
      Real.sqrt (a.i * a.i + a.j * a.j + a.k * a.k) < EPSILON
  · rw [if_pos ((flt_some_iff _ _).2 h), if_pos h]
    rfl
  · have hr : Real.sqrt (a.i * a.i + a.j * a.j + a.k * a.k) ≠ 0 := by
      intro h0
      exact h (by rw [h0]; simpa using EPSILON_pos)
    rw [if_neg (fun hh => h ((flt_some_iff _ _).1 hh)), if_neg h]
    simp only [fmul_some, fadd_some, fsub_some, fneg_some, fsin_some, fcos_some,
      fdiv_some_of_ne _ hr, fdiv_some_of_ne _ (mul_ne_zero hr hr),
      fdiv_some_of_ne _ (mul_ne_zero (mul_ne_zero hr hr) hr)]

theorem log_liftDQ (a : DQR) (hw : a.w ≠ 0)
    (hs : 0 < a.i * a.i + a.j * a.j + a.k * a.k) :
    DualQuaternion.log (liftDQ a) = liftDQ (DQR.log a) := by
  have hr : Real.sqrt (a.i * a.i + a.j * a.j + a.k * a.k) ≠ 0 :=
    (Real.sqrt_pos.2 hs).ne'
  unfold DualQuaternion.log DQR.log
  simp only [liftDQ, fmul_some, fadd_some, fsub_some, fatan_some,
    fsqrt_some_of_nonneg hs.le,
    fdiv_some_of_ne _ hw, fdiv_some_of_ne _ hr,
    fdiv_some_of_ne _ (mul_ne_zero hr hr)]

/-! ### The exp/log round trip for normalized motions over `ℝ` -/

set_option maxHeartbeats 1600000 in
theorem exp_log_aux (w i j k ie je ke we r θ : ℝ)
    (hw : 0 < w) (hr : 0 < r) (hθ : 0 < θ)
    (hr2 : r * r = i * i + j * j + k * k)
    (hat : Real.arctan (r / w) = θ)
    (hcos : Real.cos θ = w) (hsin : Real.sin θ = r)
    (hstudy : w * we + (i * ie + j * je + k * ke) = 0)
    (heps : ¬ θ * θ < EPSILON) :
    DQR.exp (DQR.log ⟨w, i, j, k, ie, je, ke, we⟩) = ⟨w, i, j, k, ie, je, ke, we⟩ := by
  have hrne : r ≠ 0 := hr.ne'
  have hθne : θ ≠ 0 := hθ.ne'
  have hwne : w ≠ 0 := hw.ne'
  have hrs : Real.sqrt (i * i + j * j + k * k) = r := by
    rw [← hr2]
    exact Real.sqrt_mul_self hr.le
  have hunit : w * w + r * r = 1 := by
    have hpy := Real.sin_sq_add_cos_sq θ
    rw [hsin, hcos] at hpy
    nlinarith [hpy]
  have hlog : DQR.log ⟨w, i, j, k, ie, je, ke, we⟩ =
      ⟨0, θ / r * i, θ / r * j, θ / r * k,
       θ / r * ie + ((w - θ / r) * ((i * ie + j * je + k * ke) / (r * r)) - we) * i,
       θ / r * je + ((w - θ / r) * ((i * ie + j * je + k * ke) / (r * r)) - we) * j,
       θ / r * ke + ((w - θ / r) * ((i * ie + j * je + k * ke) / (r * r)) - we) * k,
       0⟩ := by
    simp only [DQR.log]
    rw [hrs, hat]
  rw [hlog]
  have hsl : θ / r * i * (θ / r * i) + θ / r * j * (θ / r * j) +
      θ / r * k * (θ / r * k) = θ * θ := by
    field_simp
    linear_combination (-(θ ^ 2)) * hr2
  have hsqL : Real.sqrt (θ / r * i * (θ / r * i) + θ / r * j * (θ / r * j) +
      θ / r * k * (θ / r * k)) = θ := by
    rw [hsl]
    exact Real.sqrt_mul_self hθ.le
  simp only [DQR.exp]
  rw [hsqL, if_neg heps, hsin, hcos]
  set A := θ / r with hA
  set TR := (w - A) * ((i * ie + j * je + k * ke) / (r * r)) - we with hTR
  have hTG : A * i * (A * ie + TR * i) + A * j * (A * je + TR * j) +
      A * k * (A * ke + TR * k) = -(A * we) := by
    rw [hTR, hA]
    field_simp
    linear_combination
      (θ ^ 2 * r ^ 2 * (i * ie + j * je + k * ke) -
        θ * r ^ 3 * w * (i * ie + j * je + k * ke) + θ * r ^ 5 * we) * hr2 +
      (-(θ * r ^ 5 * we)) * hunit + (θ * r ^ 5 * w) * hstudy
  rw [hTG]
  refine DQR.ext rfl ?_ ?_ ?_ ?_ ?_ ?_ ?_
  · rw [hA]
    field_simp
    ring
  · rw [hA]
    field_simp
    ring
  · rw [hA]
    field_simp
    ring
  · rw [hTR, hA]
    field_simp
    linear_combination (r ^ 4 * θ ^ 5 * i * (r * w - θ)) * hstudy +
      (-(r ^ 5 * θ ^ 5 * i * we)) * hunit
  · rw [hTR, hA]
    field_simp
    linear_combination (r ^ 4 * θ ^ 5 * j * (r * w - θ)) * hstudy +
      (-(r ^ 5 * θ ^ 5 * j * we)) * hunit
  · rw [hTR, hA]
    field_simp
    linear_combination (r ^ 4 * θ ^ 5 * k * (r * w - θ)) * hstudy +
      (-(r ^ 5 * θ ^ 5 * k * we)) * hunit
  · rw [hA]
    field_simp
    ring

/-- Round trip `exp (log q) = q` over the reals, for a normalized motion
`q` (unit real part, Study condition) with `w > 0`, a nonzero rotation
axis, and a rotation angle that clears the `EPSILON` guard in `exp`. -/
theorem DQR.exp_log (q : DQR)
    (hw : 0 < q.w)
    (hs : 0 < q.i * q.i + q.j * q.j + q.k * q.k)
    (hunit : q.w * q.w + (q.i * q.i + q.j * q.j + q.k * q.k) = 1)
    (hstudy : q.w * q.we + (q.i * q.ie + q.j * q.je + q.k * q.ke) = 0)
    (heps : EPSILON ≤
      Real.arctan (Real.sqrt (q.i * q.i + q.j * q.j + q.k * q.k) / q.w) ^ 2) :
    DQR.exp (DQR.log q) = q := by
  have hr : 0 < Real.sqrt (q.i * q.i + q.j * q.j + q.k * q.k) := Real.sqrt_pos.2 hs
  have hθ : 0 < Real.arctan (Real.sqrt (q.i * q.i + q.j * q.j + q.k * q.k) / q.w) := by
    have h0 := Real.arctan_strictMono (div_pos hr hw)
    rwa [Real.arctan_zero] at h0
  have hr2 : Real.sqrt (q.i * q.i + q.j * q.j + q.k * q.k) *
      Real.sqrt (q.i * q.i + q.j * q.j + q.k * q.k) =
      q.i * q.i + q.j * q.j + q.k * q.k := Real.mul_self_sqrt hs.le
  have hsq1 : Real.sqrt (1 + (Real.sqrt (q.i * q.i + q.j * q.j + q.k * q.k) / q.w) ^ 2) =
      1 / q.w := by
    have h1 : 1 + (Real.sqrt (q.i * q.i + q.j * q.j + q.k * q.k) / q.w) ^ 2 =
        (1 / q.w) ^ 2 := by
      field_simp
      linear_combination hunit
    rw [h1]
    exact Real.sqrt_sq (by positivity)
  have hcos : Real.cos (Real.arctan (Real.sqrt (q.i * q.i + q.j * q.j + q.k * q.k) / q.w)) =
      q.w := by
    rw [Real.cos_arctan, hsq1]
    field_simp
  have hsin : Real.sin (Real.arctan (Real.sqrt (q.i * q.i + q.j * q.j + q.k * q.k) / q.w)) =
      Real.sqrt (q.i * q.i + q.j * q.j + q.k * q.k) := by
    rw [Real.sin_arctan, hsq1]
    field_simp
  have heps' : ¬ Real.arctan (Real.sqrt (q.i * q.i + q.j * q.j + q.k * q.k) / q.w) *
      Real.arctan (Real.sqrt (q.i * q.i + q.j * q.j + q.k * q.k) / q.w) < EPSILON := by
    rw [← sq]
    exact not_lt.2 heps
  exact exp_log_aux q.w q.i q.j q.k q.ie q.je q.ke q.we _ _ hw hr hθ hr2 rfl hcos hsin
    hstudy heps'

/-- Right multiplication by the identity motion over the reals. -/
theorem DQR.mul_ONE (a : DQR) : DQR.mul a DQR.ONE = a := by
  refine DQR.ext ?_ ?_ ?_ ?_ ?_ ?_ ?_ ?_ <;>
    simp [DQR.mul, DQR.ONE, QuatR.mul, QuatR.add]

/-- Scaling a real dual quaternion by 0 gives the zero element. -/
theorem DQR.smulLeft_zero (a : DQR) :
    DQR.smulLeft 0 a = ⟨0, 0, 0, 0, 0, 0, 0, 0⟩ := by
  simp [DQR.smulLeft]

/-- Scaling a real dual quaternion by 1 changes nothing. -/
theorem DQR.smulLeft_one (a : DQR) : DQR.smulLeft 1 a = a := by
  refine DQR.ext ?_ ?_ ?_ ?_ ?_ ?_ ?_ ?_ <;> simp [DQR.smulLeft]

/-- The exponential of the zero generator is the identity motion (the
`r*r < EPSILON` branch of `exp`). -/
theorem DQR.exp_zero : DQR.exp ⟨0, 0, 0, 0, 0, 0, 0, 0⟩ = DQR.ONE := by
  rw [DQR.exp]
  rw [if_pos]
  simp [Real.sqrt_zero, EPSILON_pos]

/-- Squared real-part norm of `conj a * b` multiplies the operands'
squared real-part norms. -/
theorem DQR.normSq_real_conj_mul (a b : DQR) :
    ((DQR.mul (DQR.conj a) b).w * (DQR.mul (DQR.conj a) b).w +
      ((DQR.mul (DQR.conj a) b).i * (DQR.mul (DQR.conj a) b).i +
       (DQR.mul (DQR.conj a) b).j * (DQR.mul (DQR.conj a) b).j +
       (DQR.mul (DQR.conj a) b).k * (DQR.mul (DQR.conj a) b).k)) =
    (a.w * a.w + (a.i * a.i + a.j * a.j + a.k * a.k)) *
    (b.w * b.w + (b.i * b.i + b.j * b.j + b.k * b.k)) := by
  simp only [DQR.mul, DQR.conj, QuatR.mul, QuatR.add]
  ring

/-- Study inner product of `conj a * b`, as a combination of the operands'
Study inner products. -/
theorem DQR.study_conj_mul (a b : DQR) :
    (DQR.mul (DQR.conj a) b).w * (DQR.mul (DQR.conj a) b).we +
      ((DQR.mul (DQR.conj a) b).i * (DQR.mul (DQR.conj a) b).ie +
       (DQR.mul (DQR.conj a) b).j * (DQR.mul (DQR.conj a) b).je +
       (DQR.mul (DQR.conj a) b).k * (DQR.mul (DQR.conj a) b).ke) =
    (a.w * a.w + (a.i * a.i + a.j * a.j + a.k * a.k)) *
      (b.w * b.we + (b.i * b.ie + b.j * b.je + b.k * b.ke)) +
    (b.w * b.w + (b.i * b.i + b.j * b.j + b.k * b.k)) *
      (a.w * a.we + (a.i * a.ie + a.j * a.je + a.k * a.ke)) := by
  simp only [DQR.mul, DQR.conj, QuatR.mul, QuatR.add]
  ring

/-- For a normalized motion `a` (unit real part, Study condition),
`a * (conj a * b) = b` over the reals. -/
theorem DQR.mul_conj_cancel (a b : DQR)
    (hu : a.w * a.w + (a.i * a.i + a.j * a.j + a.k * a.k) = 1)
    (hst : a.w * a.we + (a.i * a.ie + a.j * a.je + a.k * a.ke) = 0) :
    DQR.mul a (DQR.mul (DQR.conj a) b) = b := by
  refine DQR.ext ?_ ?_ ?_ ?_ ?_ ?_ ?_ ?_ <;>
    simp only [DQR.mul, DQR.conj, QuatR.mul, QuatR.add]
  · linear_combination b.w * hu
  · linear_combination b.i * hu
  · linear_combination b.j * hu
  · linear_combination b.k * hu
  · linear_combination b.ie * hu + 2 * b.i * hst
  · linear_combination b.je * hu + 2 * b.j * hst
  · linear_combination b.ke * hu + 2 * b.k * hst
  · linear_combination b.we * hu + 2 * b.w * hst

/-! ## Claims -/

/-- Claim C1: the spec asserts `exp(log(q)) == q` within tolerance for every
`q` with `norm(q) > 0`, explicitly including pure positive real scalars.
Evaluating the code at `q = (2,0,0,0)` (norm 2 > 0): `log` divides `w` by the
axis norm 0, so every component of `exp(log(q))` is non-finite — not equal
to `q` within any tolerance.  The claim is right and the code is wrong
(`log` also divides by the axis norm instead of the full norm, against its
cited formula). -/
theorem claim_C1_exp_log_roundtrip_fails_on_positive_real :
    Quaternion.exp (Quaternion.log ⟨some 2, some 0, some 0, some 0⟩) =
      ⟨none, none, none, none⟩ := by
  norm_num [Quaternion.exp, Quaternion.log, Quaternion.norm, fsqrt, fdiv]

/-- Claim C2: the spec requires `exp` to special-case the zero-axis limit
and return the finite `(exp w, 0, 0, 0)`.  The code has no such special
case: at `q = (1,0,0,0)` the imaginary components are `exp(1)*sin(0)*0/0`,
i.e. non-finite, instead of the required `0`. -/
theorem claim_C2_exp_zero_axis_unguarded :
    Quaternion.exp ⟨some 1, some 0, some 0, some 0⟩ =
      ⟨some (Real.exp 1), none, none, none⟩ := by
  norm_num [Quaternion.exp, fsqrt, fdiv]

/-- Claim C6: the spec requires `powf` to fast-path pure real scalars so
that `powf((w,0,0,0), f) = (w^f, 0, 0, 0)` is finite for `w > 0`.  The code
is the bare `exp(f*log(q))` with no fast path: at `q = (2,0,0,0)`, `f = 2`
every component is non-finite instead of the required finite `(4,0,0,0)`. -/
theorem claim_C6_powf_pure_real_unguarded :
    Quaternion.powf ⟨some 2, some 0, some 0, some 0⟩ (some 2) =
      ⟨none, none, none, none⟩ := by
  norm_num [Quaternion.powf, Quaternion.exp, Quaternion.log, Quaternion.norm,
    Quaternion.smul, fsqrt, fdiv]

/-- Claim C4: `conj` negates exactly `i,j,k,ie,je,ke` and keeps `w,we`;
`nconj` negates exactly `i,j,k,we`; `iconj` negates exactly `ie,je,ke,we`;
and the three conjugation variants are pairwise distinct component maps
(witnessed at the all-ones dual quaternion). -/
theorem claim_C4_conjugation_variants :
    (∀ a : DualQuaternion,
      DualQuaternion.conj a =
        ⟨a.w, fneg a.i, fneg a.j, fneg a.k, fneg a.ie, fneg a.je, fneg a.ke, a.we⟩ ∧
      DualQuaternion.nconj a =
        ⟨a.w, fneg a.i, fneg a.j, fneg a.k, a.ie, a.je, a.ke, fneg a.we⟩ ∧
      DualQuaternion.iconj a =
        ⟨a.w, a.i, a.j, a.k, fneg a.ie, fneg a.je, fneg a.ke, fneg a.we⟩) ∧
    (∃ a : DualQuaternion,
      DualQuaternion.conj a ≠ DualQuaternion.nconj a ∧
      DualQuaternion.conj a ≠ DualQuaternion.iconj a ∧
      DualQuaternion.nconj a ≠ DualQuaternion.iconj a) := by
  refine ⟨fun a => ⟨rfl, rfl, rfl⟩,
    ⟨⟨some 1, some 1, some 1, some 1, some 1, some 1, some 1, some 1⟩, ?_, ?_, ?_⟩⟩ <;>
  norm_num [DualQuaternion.conj, DualQuaternion.nconj, DualQuaternion.iconj,
    DualQuaternion.mk.injEq]

/-- Claim C7: the dual-quaternion product of `a` and `b` is exactly the
pair `(r1*r2, r1*d2 + d1*r2)` of Hamilton products of the real and dual
quaternion halves, and it is not commutative (witnessed at the real-axis
units i and j). -/
theorem claim_C7_product_decomposition :
    (∀ a b : DualQuaternion,
      DualQuaternion.mul a b =
        ⟨(Quaternion.mul ⟨a.w, a.i, a.j, a.k⟩ ⟨b.w, b.i, b.j, b.k⟩).w,
         (Quaternion.mul ⟨a.w, a.i, a.j, a.k⟩ ⟨b.w, b.i, b.j, b.k⟩).i,
         (Quaternion.mul ⟨a.w, a.i, a.j, a.k⟩ ⟨b.w, b.i, b.j, b.k⟩).j,
         (Quaternion.mul ⟨a.w, a.i, a.j, a.k⟩ ⟨b.w, b.i, b.j, b.k⟩).k,
         ((Quaternion.mul ⟨a.w, a.i, a.j, a.k⟩ ⟨b.we, b.ie, b.je, b.ke⟩).add
            (Quaternion.mul ⟨a.we, a.ie, a.je, a.ke⟩ ⟨b.w, b.i, b.j, b.k⟩)).i,
         ((Quaternion.mul ⟨a.w, a.i, a.j, a.k⟩ ⟨b.we, b.ie, b.je, b.ke⟩).add
            (Quaternion.mul ⟨a.we, a.ie, a.je, a.ke⟩ ⟨b.w, b.i, b.j, b.k⟩)).j,
         ((Quaternion.mul ⟨a.w, a.i, a.j, a.k⟩ ⟨b.we, b.ie, b.je, b.ke⟩).add
            (Quaternion.mul ⟨a.we, a.ie, a.je, a.ke⟩ ⟨b.w, b.i, b.j, b.k⟩)).k,
         ((Quaternion.mul ⟨a.w, a.i, a.j, a.k⟩ ⟨b.we, b.ie, b.je, b.ke⟩).add
            (Quaternion.mul ⟨a.we, a.ie, a.je, a.ke⟩ ⟨b.w, b.i, b.j, b.k⟩)).w⟩) ∧
    (∃ a b : DualQuaternion, DualQuaternion.mul a b ≠ DualQuaternion.mul b a) := by
  refine ⟨fun a b => rfl,
    ⟨⟨some 0, some 1, some 0, some 0, some 0, some 0, some 0, some 0⟩,
     ⟨some 0, some 0, some 1, some 0, some 0, some 0, some 0, some 0⟩, ?_⟩⟩
  norm_num [DualQuaternion.mul, Quaternion.mul, Quaternion.add,
    DualQuaternion.mk.injEq]

/-- Claim C9: the spec requires the compound-assignment forms to agree with
the binary operator forms.  Both `Complex *= Complex` and
`Quaternion *= Complex` update their fields sequentially, reading fields
already overwritten: at `a = 1+i, b = i` the complex forms give `-1-i`
versus `-1+i`, and at `q = (1,1,0,0), c = i` the quaternion forms give
`i = -1` versus `i = 1`.  The claim is right and the code is wrong. -/
theorem claim_C9_mul_assign_diverges :
    Complex.mulAssign ⟨some 1, some 1⟩ ⟨some 0, some 1⟩ ≠
      Complex.mul ⟨some 1, some 1⟩ ⟨some 0, some 1⟩ ∧
    Quaternion.mulAssignComplex ⟨some 1, some 1, some 0, some 0⟩ ⟨some 0, some 1⟩ ≠
      Quaternion.mulComplex ⟨some 1, some 1, some 0, some 0⟩ ⟨some 0, some 1⟩ := by
  constructor <;>
  norm_num [Complex.mulAssign, Complex.mul, Quaternion.mulAssignComplex,
    Quaternion.mulComplex, Complex.mk.injEq, Quaternion.mk.injEq]

/-- Claim C3: for every pure generator (`w = 0`, `we = 0`) whose real vector
part satisfies the implementation's zero-rotation test
`r*r < Scalar::EPSILON`, and any dual vector part, `DualQuaternion::exp`
returns exactly the identity motion `ONE` (hence never a non-finite
value): the guarded branch of `exp`. -/
theorem claim_C3_dq_exp_zero_rotation_guard (gi gj gk gie gje gke : ℝ)
    (h : gi * gi + gj * gj + gk * gk < EPSILON) :
    DualQuaternion.exp ⟨some 0, some gi, some gj, some gk,
      some gie, some gje, some gke, some 0⟩ = DualQuaternion.ONE := by
  have hnn : (0:ℝ) ≤ gi * gi + gj * gj + gk * gk := by
    nlinarith [mul_self_nonneg gi, mul_self_nonneg gj, mul_self_nonneg gk]
  simp only [DualQuaternion.exp, fmul_some, fadd_some, fsqrt_some_of_nonneg hnn,
    flt_some_iff, Real.mul_self_sqrt hnn]
  rw [if_pos h]

/-- Witness for claim C3 at the zero generator: the hypothesis
`0 < EPSILON` holds and `exp` returns the identity motion. -/
theorem claim_C3_witness :
    (0:ℝ) * 0 + 0 * 0 + 0 * 0 < EPSILON ∧
    DualQuaternion.exp ⟨some 0, some 0, some 0, some 0, some 0, some 0, some 0,
      some 0⟩ = DualQuaternion.ONE := by
  have h : (0:ℝ) * 0 + 0 * 0 + 0 * 0 < EPSILON := by norm_num [EPSILON]
  exact ⟨h, claim_C3_dq_exp_zero_rotation_guard 0 0 0 0 0 0 h⟩

/-- Spec-shaped `line` for claim C5, following the claim's words: `(i,j,k)`
is `normalize(dir)` and the moment `(ie,je,ke)` is the cross product
`normalize(dir) × pos` (and scalars 0). -/
noncomputable def lineSpec (p0 p1 p2 d0 d1 d2 : ℝ) : DQR :=
  let n := Real.sqrt (d0 * d0 + d1 * d1 + d2 * d2)
  let e0 := d0 / n
  let e1 := d1 / n
  let e2 := d2 / n
  ⟨0, e0, e1, e2,
   e1 * p2 - p1 * e2,
   e2 * p0 - p2 * e0,
   e0 * p1 - p0 * e1,
   0⟩

/-- Claim C5 fails as stated: at `pos = (0,1,0)`, `dir = (1,0,0)` the code's
moment is `pos × normalize(dir) = (0,0,-1)` (scaled by `n = 1`), while the
claim's `normalize(dir) × pos` is `(0,0,1)` — opposite sign. -/
theorem claim_C5_counterexample :
    DualQuaternion.line [some 0, some 1, some 0] [some 1, some 0, some 0] ≠
      some (liftDQ (lineSpec 0 1 0 1 0 0)) := by
  norm_num [DualQuaternion.line, lineSpec, liftDQ, fdiv, fsqrt, List.get?,
    Real.sqrt_one, DualQuaternion.mk.injEq]

/-- Claim C5 as amended: for finite `pos` and `dir` with `dir` nonzero,
`line(pos, dir)` has `(i,j,k) = normalize(dir)`, moment `(ie,je,ke)` equal
to the cross product `pos × dir` scaled by `1/|dir|²` (that is,
`n * (pos × normalize(dir))` with `n = 1/|dir|`), and `w = we = 0`. -/
theorem claim_C5_line_amended (p0 p1 p2 d0 d1 d2 : ℝ)
    (hd : 0 < d0 * d0 + d1 * d1 + d2 * d2) :
    DualQuaternion.line [some p0, some p1, some p2] [some d0, some d1, some d2] =
      some (liftDQ
        ⟨0,
         d0 / Real.sqrt (d0 * d0 + d1 * d1 + d2 * d2),
         d1 / Real.sqrt (d0 * d0 + d1 * d1 + d2 * d2),
         d2 / Real.sqrt (d0 * d0 + d1 * d1 + d2 * d2),
         (p1 * d2 - d1 * p2) / (d0 * d0 + d1 * d1 + d2 * d2),
         (p2 * d0 - d2 * p0) / (d0 * d0 + d1 * d1 + d2 * d2),
         (p0 * d1 - d0 * p1) / (d0 * d0 + d1 * d1 + d2 * d2),
         0⟩) := by
  have hr : Real.sqrt (d0 * d0 + d1 * d1 + d2 * d2) ≠ 0 := (Real.sqrt_pos.2 hd).ne'
  have hrr := Real.mul_self_sqrt hd.le
  simp only [DualQuaternion.line, List.get?, liftDQ, fmul_some, fsub_some,
    fadd_some, fsqrt_some_of_nonneg hd.le, fdiv_some_of_ne _ hr,
    Option.some.injEq]
  refine DualQuaternion.ext ?_ ?_ ?_ ?_ ?_ ?_ ?_ ?_ <;>
    simp only [Option.some.injEq] <;> field_simp

/-- Witness for the amended claim C5 at `pos = (0,1,0)`, `dir = (2,0,0)`. -/
theorem claim_C5_line_amended_witness :
    (0:ℝ) < 2 * 2 + 0 * 0 + 0 * 0 ∧
    DualQuaternion.line [some 0, some 1, some 0] [some 2, some 0, some 0] =
      some (liftDQ
        ⟨0,
         2 / Real.sqrt (2 * 2 + 0 * 0 + 0 * 0),
         0 / Real.sqrt (2 * 2 + 0 * 0 + 0 * 0),
         0 / Real.sqrt (2 * 2 + 0 * 0 + 0 * 0),
         (1 * 0 - 0 * 0) / (2 * 2 + 0 * 0 + 0 * 0),
         (0 * 2 - 0 * 0) / (2 * 2 + 0 * 0 + 0 * 0),
         (0 * 0 - 2 * 1) / (2 * 2 + 0 * 0 + 0 * 0),
         0⟩) :=
  ⟨by norm_num, claim_C5_line_amended 0 1 0 2 0 0 (by norm_num)⟩

/-- Claim C10: every public slice-taking operation — `Quaternion::point`,
`Quaternion::transform_vector`, `Quaternion::transform_vector_scaled`,
`DualQuaternion::point`, `DualQuaternion::line`, `DualQuaternion::rotor`,
`DualQuaternion::translator`, `DualQuaternion::transform_vector3` and
`DualQuaternion::transform_point` — indexes elements 0,1,2: on any slice
of length at least 3 it returns normally (`isSome`), and on any shorter
slice it panics (`none`). -/
theorem claim_C10_slice_index_behavior :
    (∀ l : List FScalar, 3 ≤ l.length → (Quaternion.point l).isSome) ∧
    (∀ l : List FScalar, l.length < 3 → Quaternion.point l = none) ∧
    (∀ (q : Quaternion) (l : List FScalar), 3 ≤ l.length →
      (q.transform_vector l).isSome) ∧
    (∀ (q : Quaternion) (l : List FScalar), l.length < 3 →
      q.transform_vector l = none) ∧
    (∀ (q : Quaternion) (l : List FScalar), 3 ≤ l.length →
      (q.transform_vector_scaled l).isSome) ∧
    (∀ (q : Quaternion) (l : List FScalar), l.length < 3 →
      q.transform_vector_scaled l = none) ∧
    (∀ l : List FScalar, 3 ≤ l.length → (DualQuaternion.point l).isSome) ∧
    (∀ l : List FScalar, l.length < 3 → DualQuaternion.point l = none) ∧
    (∀ p d : List FScalar, 3 ≤ p.length → 3 ≤ d.length →
      (DualQuaternion.line p d).isSome) ∧
    (∀ p d : List FScalar, p.length < 3 ∨ d.length < 3 →
      DualQuaternion.line p d = none) ∧
    (∀ (angle : Angle) (l : List FScalar), 3 ≤ l.length →
      (DualQuaternion.rotor angle l).isSome) ∧
    (∀ (angle : Angle) (l : List FScalar), l.length < 3 →
      DualQuaternion.rotor angle l = none) ∧
    (∀ l : List FScalar, 3 ≤ l.length → (DualQuaternion.translator l).isSome) ∧
    (∀ l : List FScalar, l.length < 3 → DualQuaternion.translator l = none) ∧
    (∀ (q : DualQuaternion) (l : List FScalar), 3 ≤ l.length →
      (q.transform_vector3 l).isSome) ∧
    (∀ (q : DualQuaternion) (l : List FScalar), l.length < 3 →
      q.transform_vector3 l = none) ∧
    (∀ (q : DualQuaternion) (l : List FScalar), 3 ≤ l.length →
      (q.transform_point l).isSome) ∧
    (∀ (q : DualQuaternion) (l : List FScalar), l.length < 3 →
      q.transform_point l = none) := by
  have hsplit : ∀ l : List FScalar, 3 ≤ l.length →
      ∃ a b c rest, l = a :: b :: c :: rest := by
    intro l h
    rcases l with _ | ⟨a, _ | ⟨b, _ | ⟨c, rest⟩⟩⟩ <;> simp at h
    exact ⟨a, b, c, rest, rfl⟩
  have hshort : ∀ l : List FScalar, l.length < 3 →
      l = [] ∨ (∃ a, l = [a]) ∨ ∃ a b, l = [a, b] := by
    intro l h
    rcases l with _ | ⟨a, _ | ⟨b, _ | ⟨c, rest⟩⟩⟩
    · exact Or.inl rfl
    · exact Or.inr (Or.inl ⟨a, rfl⟩)
    · exact Or.inr (Or.inr ⟨a, b, rfl⟩)
    · exact absurd h (by simp)
  refine ⟨?_, ?_, ?_, ?_, ?_, ?_, ?_, ?_, ?_, ?_, ?_, ?_, ?_, ?_, ?_, ?_, ?_, ?_⟩
  · intro l h
    obtain ⟨a, b, c, rest, rfl⟩ := hsplit l h
    rfl
  · intro l h
    rcases hshort l h with rfl | ⟨a, rfl⟩ | ⟨a, b, rfl⟩ <;> rfl
  · intro q l h
    obtain ⟨a, b, c, rest, rfl⟩ := hsplit l h
    rfl
  · intro q l h
    rcases hshort l h with rfl | ⟨a, rfl⟩ | ⟨a, b, rfl⟩ <;> rfl
  · intro q l h
    obtain ⟨a, b, c, rest, rfl⟩ := hsplit l h
    rfl
  · intro q l h
    rcases hshort l h with rfl | ⟨a, rfl⟩ | ⟨a, b, rfl⟩ <;> rfl
  · intro l h
    obtain ⟨a, b, c, rest, rfl⟩ := hsplit l h
    rfl
  · intro l h
    rcases hshort l h with rfl | ⟨a, rfl⟩ | ⟨a, b, rfl⟩ <;> rfl
  · intro p d hp hd
    obtain ⟨a, b, c, rest, rfl⟩ := hsplit p hp
    obtain ⟨x, y, z, rest2, rfl⟩ := hsplit d hd
    rfl
  · intro p d h
    rcases h with h | h
    · rcases hshort p h with rfl | ⟨a, rfl⟩ | ⟨a, b, rfl⟩ <;> rfl
    · rcases hshort d h with rfl | ⟨x, rfl⟩ | ⟨x, y, rfl⟩ <;>
        rcases p with _ | ⟨a, _ | ⟨b, _ | ⟨c, rest⟩⟩⟩ <;> rfl
  · intro angle l h
    obtain ⟨a, b, c, rest, rfl⟩ := hsplit l h
    rfl
  · intro angle l h
    rcases hshort l h with rfl | ⟨a, rfl⟩ | ⟨a, b, rfl⟩ <;> rfl
  · intro l h
    obtain ⟨a, b, c, rest, rfl⟩ := hsplit l h
    rfl
  · intro l h
    rcases hshort l h with rfl | ⟨a, rfl⟩ | ⟨a, b, rfl⟩ <;> rfl
  · intro q l h
    obtain ⟨a, b, c, rest, rfl⟩ := hsplit l h
    rfl
  · intro q l h
    rcases hshort l h with rfl | ⟨a, rfl⟩ | ⟨a, b, rfl⟩ <;> rfl
  · intro q l h
    obtain ⟨a, b, c, rest, rfl⟩ := hsplit l h
    rfl
  · intro q l h
    rcases hshort l h with rfl | ⟨a, rfl⟩ | ⟨a, b, rfl⟩ <;> rfl

/-- Witness for claim C10: each of the nine operations' behaviors at a
concrete slice. -/
theorem claim_C10_witness :
    (Quaternion.point [some 1, some 2, some 3]).isSome ∧
    Quaternion.point [some 1] = none ∧
    (Quaternion.ONE.transform_vector [some 1, some 2, some 3]).isSome ∧
    Quaternion.ONE.transform_vector [some 1, some 2] = none ∧
    (Quaternion.ONE.transform_vector_scaled [some 1, some 2, some 3]).isSome ∧
    Quaternion.ONE.transform_vector_scaled [some 1, some 2] = none ∧
    (DualQuaternion.point [some 1, some 2, some 3]).isSome ∧
    DualQuaternion.point [] = none ∧
    (DualQuaternion.line [some 0, some 1, some 0] [some 1, some 0, some 0]).isSome ∧
    DualQuaternion.line [some 0] [some 1, some 0, some 0] = none ∧
    (DualQuaternion.rotor ⟨some 0, some 0⟩ [some 1, some 0, some 0]).isSome ∧
    DualQuaternion.rotor ⟨some 0, some 0⟩ [some 1, some 0] = none ∧
    (DualQuaternion.translator [some 1, some 2, some 3]).isSome ∧
    DualQuaternion.translator [some 1] = none ∧
    (DualQuaternion.ONE.transform_vector3 [some 1, some 2, some 3]).isSome ∧
    DualQuaternion.ONE.transform_vector3 [] = none ∧
    (DualQuaternion.ONE.transform_point [some 1, some 2, some 3]).isSome ∧
    DualQuaternion.ONE.transform_point [some 1] = none :=
  ⟨claim_C10_slice_index_behavior.1 _ (by norm_num),
   claim_C10_slice_index_behavior.2.1 _ (by norm_num),
   claim_C10_slice_index_behavior.2.2.1 _ _ (by norm_num),
   claim_C10_slice_index_behavior.2.2.2.1 _ _ (by norm_num),
   claim_C10_slice_index_behavior.2.2.2.2.1 _ _ (by norm_num),
   claim_C10_slice_index_behavior.2.2.2.2.2.1 _ _ (by norm_num),
   claim_C10_slice_index_behavior.2.2.2.2.2.2.1 _ (by norm_num),
   claim_C10_slice_index_behavior.2.2.2.2.2.2.2.1 _ (by norm_num),
   claim_C10_slice_index_behavior.2.2.2.2.2.2.2.2.1 _ _ (by norm_num) (by norm_num),
   claim_C10_slice_index_behavior.2.2.2.2.2.2.2.2.2.1 _ _ (Or.inl (by norm_num)),
   claim_C10_slice_index_behavior.2.2.2.2.2.2.2.2.2.2.1 _ _ (by norm_num),
   claim_C10_slice_index_behavior.2.2.2.2.2.2.2.2.2.2.2.1 _ _ (by norm_num),
   claim_C10_slice_index_behavior.2.2.2.2.2.2.2.2.2.2.2.2.1 _ (by norm_num),
   claim_C10_slice_index_behavior.2.2.2.2.2.2.2.2.2.2.2.2.2.1 _ (by norm_num),
   claim_C10_slice_index_behavior.2.2.2.2.2.2.2.2.2.2.2.2.2.2.1 _ _ (by norm_num),
   claim_C10_slice_index_behavior.2.2.2.2.2.2.2.2.2.2.2.2.2.2.2.1 _ _ (by norm_num),
   claim_C10_slice_index_behavior.2.2.2.2.2.2.2.2.2.2.2.2.2.2.2.2.1 _ _ (by norm_num),
   claim_C10_slice_index_behavior.2.2.2.2.2.2.2.2.2.2.2.2.2.2.2.2.2 _ _ (by norm_num)⟩

/-- Claim C8: for all-finite motions `a = liftDQ A` and `b = liftDQ B`
(normalized, Study-condition-satisfying dual quaternions) such that
`C = conj(a)*b` satisfies the preconditions of `log` — positive real
scalar part, nonzero rotation axis, and a rotation angle whose square
clears the `EPSILON` guard of `exp`, which makes `log(conj(a)*b)` finite —
`sclerp(a, b, 0) = a` and `sclerp(a, b, 1) = b` hold exactly. -/
theorem claim_C8_sclerp_endpoints (A B C : DQR)
    (hC : C = DQR.mul (DQR.conj A) B)
    (hAu : A.w * A.w + (A.i * A.i + A.j * A.j + A.k * A.k) = 1)
    (hAst : A.w * A.we + (A.i * A.ie + A.j * A.je + A.k * A.ke) = 0)
    (hBu : B.w * B.w + (B.i * B.i + B.j * B.j + B.k * B.k) = 1)
    (hBst : B.w * B.we + (B.i * B.ie + B.j * B.je + B.k * B.ke) = 0)
    (hCw : 0 < C.w)
    (hCs : 0 < C.i * C.i + C.j * C.j + C.k * C.k)
    (hCeps : EPSILON ≤
      Real.arctan (Real.sqrt (C.i * C.i + C.j * C.j + C.k * C.k) / C.w) ^ 2) :
    DualQuaternion.sclerp (liftDQ A) (liftDQ B) (some 0) = liftDQ A ∧
    DualQuaternion.sclerp (liftDQ A) (liftDQ B) (some 1) = liftDQ B := by
  have hCu : C.w * C.w + (C.i * C.i + C.j * C.j + C.k * C.k) = 1 := by
    rw [hC, DQR.normSq_real_conj_mul, hAu, hBu, one_mul]
  have hCst : C.w * C.we + (C.i * C.ie + C.j * C.je + C.k * C.ke) = 0 := by
    rw [hC, DQR.study_conj_mul, hAst, hBst]
    ring
  have hlog := log_liftDQ C hCw.ne' hCs
  constructor
  · unfold DualQuaternion.sclerp DualQuaternion.powf
    rw [conj_liftDQ, mul_liftDQ, ← hC, hlog, smulLeft_liftDQ, DQR.smulLeft_zero,
      exp_liftDQ, DQR.exp_zero, mul_liftDQ, DQR.mul_ONE]
  · unfold DualQuaternion.sclerp DualQuaternion.powf
    rw [conj_liftDQ, mul_liftDQ, ← hC, hlog, smulLeft_liftDQ, DQR.smulLeft_one,
      exp_liftDQ, DQR.exp_log C hCw hCs hCu hCst hCeps, mul_liftDQ, hC,
      DQR.mul_conj_cancel A B hAu hAst]

/-- Witness for claim C8: `a` the identity motion and `b` the rotor with
`w = 3/5`, `k = 4/5`; both endpoint identities hold. -/
theorem claim_C8_witness :
    DualQuaternion.sclerp (liftDQ DQR.ONE)
        (liftDQ ⟨3/5, 0, 0, 4/5, 0, 0, 0, 0⟩) (some 0) = liftDQ DQR.ONE ∧
    DualQuaternion.sclerp (liftDQ DQR.ONE)
        (liftDQ ⟨3/5, 0, 0, 4/5, 0, 0, 0, 0⟩) (some 1) =
      liftDQ ⟨3/5, 0, 0, 4/5, 0, 0, 0, 0⟩ := by
  have hsq : Real.sqrt ((0:ℝ) * 0 + 0 * 0 + 4/5 * (4/5)) = 4/5 := by
    rw [show (0:ℝ) * 0 + 0 * 0 + 4/5 * (4/5) = (4/5) ^ 2 by norm_num]
    exact Real.sqrt_sq (by norm_num)
  have harc : (3/4 : ℝ) ≤ Real.arctan ((4/5) / (3/5)) := by
    have h1 : Real.arctan 1 < Real.arctan ((4/5) / (3/5)) :=
      Real.arctan_strictMono (by norm_num)
    rw [Real.arctan_one] at h1
    linarith [Real.pi_gt_three]
  refine claim_C8_sclerp_endpoints DQR.ONE ⟨3/5, 0, 0, 4/5, 0, 0, 0, 0⟩
    ⟨3/5, 0, 0, 4/5, 0, 0, 0, 0⟩ ?_ (by norm_num [DQR.ONE]) (by norm_num [DQR.ONE])
    (by norm_num) (by norm_num) (by norm_num) (by norm_num) ?_
  · refine DQR.ext ?_ ?_ ?_ ?_ ?_ ?_ ?_ ?_ <;>
      norm_num [DQR.mul, DQR.conj, DQR.ONE, QuatR.mul, QuatR.add]
  · rw [hsq]
    calc EPSILON ≤ (3/4 : ℝ) ^ 2 := by norm_num [EPSILON]
    _ ≤ Real.arctan ((4/5) / (3/5)) ^ 2 := by
        have h0 : (0:ℝ) ≤ 3/4 := by norm_num
        exact pow_le_pow_left₀ h0 harc 2

end Blanko
